import Mathlib

/-
Verification development for the IDEAutoRetry repository.

The definitions below are a shallow embedding of the core of the
repository: the in-page monitor script (button classification, danger
gate, document cache, observer lifecycle) and the CDP side (connection
pool reconciliation, eviction, evaluate-call lifecycle, injection,
page discovery, stats aggregation).  Each definition carries a comment
naming the source function it embeds.
-/

namespace AutoRetry

/-! ## String utilities

JS string `includes` / `toLowerCase` / `trim` are modelled on `String`
via character lists.  All banned commands and markers in the source are
ASCII, where Lean's `Char.toLower` agrees with JS `toLowerCase`. -/

/-- Char-list prefix test (used to model JS `String.prototype.includes`). -/
def leadsWith : List Char → List Char → Bool
  | [], _ => true
  | _ :: _, [] => false
  | a :: as, b :: bs => a == b && leadsWith as bs

/-- Does `hay` contain `needle` as a contiguous sublist? -/
def hasSubstrAux (needle : List Char) : List Char → Bool
  | [] => needle.isEmpty
  | c :: rest => leadsWith needle (c :: rest) || hasSubstrAux needle rest

/-- Model of JS `hay.includes(needle)`. -/
def containsSub (hay needle : String) : Bool :=
  hasSubstrAux needle.toList hay.toList

/-- ASCII lower-casing of one character, as JS `toLowerCase` acts on the
ASCII range (all banned commands are ASCII). -/
def lowerChar (c : Char) : Char :=
  if 65 ≤ c.toNat && c.toNat ≤ 90 then Char.ofNat (c.toNat + 32) else c

/-- Model of JS `s.toLowerCase()`. -/
def lowerStr (s : String) : String :=
  ⟨s.toList.map lowerChar⟩

/-- The whitespace characters JS `trim` removes that can occur in the
texts at hand. -/
def isWsChar (c : Char) : Bool :=
  c == ' ' || c == '\t' || c == '\n' || c == '\r'

def dropWs : List Char → List Char
  | [] => []
  | c :: rest => if isWsChar c then dropWs rest else c :: rest

/-- Model of JS `s.trim()`: strip whitespace from both ends. -/
def trimStr (s : String) : String :=
  ⟨((dropWs s.toList).reverse |> dropWs).reverse⟩

/-! ## In-page monitor: data model

Mirrors the injected script produced by `CDPHandler.getInjectScript`. -/

/-- The monitor's counters object: `let stats = { clicks: 0, blocked: 0, acceptAllClicks: 0 }`. -/
structure MStats where
  clicks : Nat
  blocked : Nat
  acceptAllClicks : Nat
deriving DecidableEq

def zeroStats : MStats := ⟨0, 0, 0⟩

/-- A DOM element as seen by `isErrorContext`: its `textContent` and `className`. -/
structure Elem where
  textContent : String
  className : String
deriving DecidableEq

/-- A candidate from `doc.querySelectorAll('button, [role="button"]')` in
`clickRetryButtonsInDocument`: the button element itself, its ancestor
chain (nearest first, as walked by `parentElement`), and the text of
`btn.closest('.terminal-command, .code-block, [class*="command"]')`
(`none` when that selector matches no self-or-ancestor element). -/
structure RetryBtn where
  self : Elem
  ancestors : List Elem
  container : Option String
deriving DecidableEq

/-- A candidate from `doc.querySelectorAll('span, div, button, a, [role="button"]')`
in `clickAcceptAllInDocument`: its `innerText || textContent` and the
outcome of the computed-style/bounding-rect visibility check (`visible`
is `false` as well when that check throws, which the source skips via
`continue`). -/
structure AcceptEl where
  innerText : String
  visible : Bool
deriving DecidableEq

/-- One reachable document: the retry-button candidates and accept-all
candidates its `querySelectorAll` calls return, in document order. -/
structure MDoc where
  retryBtns : List RetryBtn
  acceptEls : List AcceptEl
deriving DecidableEq

/-- The monitor's runtime config `window.__autoRetryConfig` (the fields the
scan pass reads). -/
structure MCfg where
  acceptAll : Bool
  bannedCommands : List String
deriving DecidableEq

/-- The `bannedCommands` array embedded in the injected script. -/
def defaultBannedCommands : List String :=
  ["rm -rf /", "rm -rf ~", "rm -rf *", "format c:", "del /f /s /q",
   "rmdir /s /q", ":()\x7b:|:&\x7d;:", "dd if=", "mkfs.", "> /dev/sda",
   "chmod -R 777 /"]

/-- Observable events of one scan pass, in the order the source emits them.
`gateEval` marks the synchronous evaluation of the danger guard
`context && isDangerousCommand(context.textContent || '')` in
`clickRetryButtonsInDocument`; `blockedEvt` the suppressed click,
`retryClick` the `btn.click()` call, `acceptClick` the click dispatch in
`clickAcceptAllInDocument` (which contains no danger-gate code). -/
inductive MEvent
  | gateEval
  | blockedEvt
  | retryClick
  | acceptClick
deriving DecidableEq

/-- `isErrorContext(element)`: walk `element` and up to 4 ancestors
(`for (let i = 0; i < 5 && el; i++)`) looking for error markers. -/
def errorMarker (e : Elem) : Bool :=
  containsSub e.textContent "error" || containsSub e.textContent "Error" ||
  containsSub e.textContent "failed" || containsSub e.textContent "Failed" ||
  containsSub e.textContent "terminated" || containsSub e.textContent "Agent terminated" ||
  containsSub e.textContent "Dismiss" ||
  containsSub e.className "error" || containsSub e.className "alert"

def isErrorContext (b : RetryBtn) : Bool :=
  ((b.self :: b.ancestors).take 5).any errorMarker

/-- `isDangerousCommand(text)`: case-insensitive substring match of `text`
against the configured banned-command list. -/
def isDangerousCommand (bannedCommands : List String) (text : String) : Bool :=
  bannedCommands.any (fun cmd => containsSub (lowerStr text) (lowerStr cmd))

/-- One iteration of the button loop of `clickRetryButtonsInDocument`:
skip unless the trimmed text is exactly `'Retry'` and the button is in an
error context; then evaluate the danger guard; a dangerous container
suppresses the click and increments `blocked`, otherwise `btn.click()`
runs and `clicks` increments. -/
def processRetryBtn (bannedCommands : List String) (b : RetryBtn) (s : MStats) :
    MStats × List MEvent :=
  if !(trimStr b.self.textContent == "Retry") then (s, [])
  else if !isErrorContext b then (s, [])
  else
    match b.container with
    | some ctext =>
        if isDangerousCommand bannedCommands ctext then
          ({ s with blocked := s.blocked + 1 }, [.gateEval, .blockedEvt])
        else
          ({ s with clicks := s.clicks + 1 }, [.gateEval, .retryClick])
    | none => ({ s with clicks := s.clicks + 1 }, [.gateEval, .retryClick])

/-- `clickRetryButtonsInDocument(doc)`: fold the button loop over the
candidates in document order, accumulating emitted events. -/
def clickRetryDoc (bannedCommands : List String) :
    List RetryBtn → MStats → MStats × List MEvent
  | [], s => (s, [])
  | b :: rest, s =>
      let r1 := processRetryBtn bannedCommands b s
      let r2 := clickRetryDoc bannedCommands rest r1.1
      (r2.1, r1.2 ++ r2.2)

/-- The text-match/length/visibility filter of `clickAcceptAllInDocument`. -/
def acceptMatches (e : AcceptEl) : Bool :=
  let text := trimStr e.innerText
  (text == "Accept All" || text == "Accept all") && !(text.toList.length > 30) && e.visible

/-- `clickAcceptAllInDocument(doc)`: first matching candidate is clicked
(through several event mechanisms, modelled as one `acceptClick` event),
`acceptAllClicks` increments, and the loop returns (at most one click per
document per pass).  No danger-gate code exists on this path. -/
def clickAcceptDoc : List AcceptEl → MStats → MStats × List MEvent
  | [], s => (s, [])
  | e :: rest, s =>
      if acceptMatches e then
        ({ s with acceptAllClicks := s.acceptAllClicks + 1 }, [.acceptClick])
      else clickAcceptDoc rest s

/-- Per-document body of `findAndClickButtons`:
`clickRetryButtonsInDocument(doc)` then, only when `config.acceptAll`,
`clickAcceptAllInDocument(doc)`. -/
def processDoc (cfg : MCfg) (d : MDoc) (s : MStats) : MStats × List MEvent :=
  let r1 := clickRetryDoc cfg.bannedCommands d.retryBtns s
  if cfg.acceptAll then
    let r2 := clickAcceptDoc d.acceptEls r1.1
    (r2.1, r1.2 ++ r2.2)
  else r1

/-- `findAndClickButtons()`: one synchronous scan pass over
`getAllDocuments(document)` (the `isProcessing` re-entrancy flag excludes
overlapping passes, so a single pass is modelled). -/
def findAndClickButtons (cfg : MCfg) : List MDoc → MStats → MStats × List MEvent
  | [], s => (s, [])
  | d :: rest, s =>
      let r1 := processDoc cfg d s
      let r2 := findAndClickButtons cfg rest r1.1
      (r2.1, r1.2 ++ r2.2)

/-- Every click event (retry or accept-all) in the trace is immediately
preceded by a danger-gate evaluation — the property claim C1 asserts. -/
def allClicksGated : List MEvent → Bool
  | [] => true
  | [.gateEval] => true
  | .retryClick :: _ => false
  | .acceptClick :: _ => false
  | .gateEval :: .retryClick :: rest2 => allClicksGated rest2
  | .gateEval :: .acceptClick :: rest2 => allClicksGated rest2
  | .gateEval :: e :: rest => allClicksGated (e :: rest)
  | _ :: rest => allClicksGated rest

/-- Every `retryClick` in the trace is immediately preceded by a
danger-gate evaluation (accept-all clicks are not constrained). -/
def retryClicksGated : List MEvent → Bool
  | [] => true
  | [.gateEval] => true
  | .retryClick :: _ => false
  | .gateEval :: .retryClick :: rest2 => retryClicksGated rest2
  | .gateEval :: e :: rest => retryClicksGated (e :: rest)
  | _ :: rest => retryClicksGated rest

/-! ## In-page monitor: mutable state, document cache, observers

Mirrors the module-level variables of the injected script
(`pollTimer`, `debounceTimer`, `observers`, `observerSetupDone`,
`cachedDocs`/`cachedDocsTime`, `window.__autoRetryLoaded`, `stats`) and
the per-document marker `doc.__autoRetryObserver`.  Documents are
identified by `Nat`; `env` is the set of documents the recursive
iframe/shadow-root traversal reaches at the current instant; `now` is
`Date.now()` at the call. -/

structure MonState where
  pollTimer : Bool
  debounceTimer : Bool
  observers : List Nat
  docMarkers : List Nat
  observerSetupDone : Bool
  cached : Option (List Nat × Nat)
  loaded : Bool
  stats : MStats
deriving DecidableEq

def initMonState : MonState :=
  { pollTimer := false, debounceTimer := false, observers := [],
    docMarkers := [], observerSetupDone := false, cached := none,
    loaded := true, stats := zeroStats }

/-- `DOCS_CACHE_TTL = 5000`. -/
def docsCacheTTL : Nat := 5000

/-- `getAllDocuments(root)`: return the cached list when
`cachedDocs && (now - cachedDocsTime) < DOCS_CACHE_TTL`, otherwise run
the traversal (yielding `env`) and restamp the cache with `now`. -/
def getAllDocsM (env : List Nat) (now : Nat) (s : MonState) :
    List Nat × MonState :=
  match s.cached with
  | some (docs, t) =>
      if now - t < docsCacheTTL then (docs, s)
      else (env, { s with cached := some (env, now) })
  | none => (env, { s with cached := some (env, now) })

/-- `invalidateDocsCache()`: `cachedDocs = null; cachedDocsTime = 0`. -/
def invalidateDocsCache (s : MonState) : MonState :=
  { s with cached := none }

/-- `cleanupObservers()`: disconnect every tracked observer and clear the
list, reset `observerSetupDone`, delete the `__autoRetryObserver` marker
on every document `getAllDocuments(document)` returns, then invalidate
the cache.  All disconnects and deletes are wrapped in try/catch in the
source, so the operation is total. -/
def cleanupObservers (env : List Nat) (now : Nat) (s : MonState) : MonState :=
  let s1 := { s with observers := [], observerSetupDone := false }
  let (docs, s2) := getAllDocsM env now s1
  let s3 := { s2 with docMarkers := s2.docMarkers.filter (fun d => !docs.contains d) }
  invalidateDocsCache s3

/-- `window.__autoRetryStop()`: clear the poll timer and the debounce
timer, run `cleanupObservers()`, and reset `window.__autoRetryLoaded`. -/
def stopMonitor (env : List Nat) (now : Nat) (s : MonState) : MonState :=
  let s1 := { s with pollTimer := false, debounceTimer := false }
  let s2 := cleanupObservers env now s1
  { s2 with loaded := false }

/-- `window.__autoRetryResetStats()`: `stats = { clicks: 0, blocked: 0, acceptAllClicks: 0 }`. -/
def resetStatsMonitor (s : MonState) : MonState :=
  { s with stats := zeroStats }

/-- The cache invariant asserted by claim C9, evaluated at instant `now`:
the cache is empty, or its entry is no older than the TTL. -/
def cacheInvB (now : Nat) (s : MonState) : Bool :=
  match s.cached with
  | none => true
  | some (_, t) => now - t ≤ docsCacheTTL

/-! ## Connection pool (`CDPHandler.start` / `evictOldestConnection`)

A pool entry mirrors `CDPConnection` plus the liveness of its socket
(`ws.readyState === 1`); the `Map` is modelled as a list in insertion
order, which is how JS `Map` iterates.  A discovered target carries the
composite id, the success of the 5s-bounded `connect` attempt, and the
`Date.now()` stamped by the `open` handler. -/

structure Conn where
  id : Nat
  wsOpen : Bool
  injected : Bool
  connectedAt : Nat
deriving DecidableEq

structure Target where
  id : Nat
  connectOk : Bool
  time : Nat
deriving DecidableEq

/-- `this.connections.has(id)`. -/
def poolHas (pool : List Conn) (i : Nat) : Bool :=
  pool.any (fun c => c.id == i)

/-- One iteration of the scan loop of `evictOldestConnection`:
`oldestTime` starts at `Infinity` (modelled by the `none` accumulator),
strict `<` keeps the first minimum in iteration order. -/
def oldestStep (acc : Option Conn) (c : Conn) : Option Conn :=
  match acc with
  | none => some c
  | some o => if c.connectedAt < o.connectedAt then some c else some o

/-- The scan loop of `evictOldestConnection` over the pool in insertion
order. -/
def oldestScan (pool : List Conn) : Option Conn :=
  pool.foldl oldestStep none

/-- `this.connections.delete(i)`: a `Map` holds at most one entry per key,
so deletion removes the first (only) entry with that id. -/
def deleteId : List Conn → Nat → List Conn
  | [], _ => []
  | c :: rest, i => if c.id == i then rest else c :: deleteId rest i

/-- `evictOldestConnection()`: pick the minimum-`connectedAt` entry (if
any), best-effort stop+close its page (no pool effect), delete it. -/
def evictOldestConnection (pool : List Conn) : List Conn :=
  match oldestScan pool with
  | none => pool
  | some o => deleteId pool o.id

/-- The capacity check of the page loop:
`if (this.connections.size >= this.maxConnections) this.evictOldestConnection()`. -/
def evictIfFull (maxConnections : Nat) (pool : List Conn) : List Conn :=
  if maxConnections ≤ pool.length then evictOldestConnection pool else pool

/-- One iteration of the page loop in `CDPHandler.start`: an already
pooled id only gets `inject`/config-update calls (pool membership
unchanged); otherwise, at capacity (`size >= maxConnections`) evict
first, then `connect` and on success insert the fresh entry
(`{ ws, injected: false, connectedAt: Date.now() }`).  The source runs
the eviction before the connect attempt; the resulting pool is the
same. -/
def admitTarget (maxConnections : Nat) (pool : List Conn) (t : Target) : List Conn :=
  if poolHas pool t.id then pool
  else if t.connectOk then
    evictIfFull maxConnections pool ++ [⟨t.id, true, false, t.time⟩]
  else evictIfFull maxConnections pool

/-- The pool effect of one `CDPHandler.start` pass: drop entries whose
socket is no longer open, then run the page loop over the targets
discovered across the port range, in iteration order. -/
def startReconcile (maxConnections : Nat) (pool : List Conn) (targets : List Target) :
    List Conn :=
  targets.foldl (admitTarget maxConnections) (pool.filter (fun c => c.wsOpen))

/-! ## Protocol client: one evaluate call (`CDPHandler.evaluate` / `stop`)

The lifecycle of a single issued call is a state machine over the
event-loop turns that can touch it: a reply whose id matches, the 5s
deadline timer firing, the forced cleanup loop of `CDPHandler.stop`, and
unrelated traffic (non-matching or unparseable messages, which the
listener ignores).  `settleCount` counts `resolve`/`reject` calls on the
call's promise. -/

inductive COutcome
  | success
  | timedOut
  | cleaned
deriving DecidableEq

structure CallRec where
  listenerOn : Bool
  timerOn : Bool
  inPending : Bool
  resolvedFlag : Bool
  settleCount : Nat
  outcome : Option COutcome
deriving DecidableEq

/-- The state of a call just after `evaluate` registers it: listener
attached, deadline timer armed, entry in `pendingMessages`. -/
def initCall : CallRec :=
  { listenerOn := true, timerOn := true, inPending := true,
    resolvedFlag := false, settleCount := 0, outcome := none }

inductive CEvent
  | msgReply
  | timerFire
  | stopCleanup
  | otherMsg
deriving DecidableEq

/-- The `cleanup` closure: guarded by `resolved`; detaches the message
listener and deletes the `pendingMessages` entry. -/
def cleanupFn (c : CallRec) : CallRec :=
  if c.resolvedFlag then c
  else { c with resolvedFlag := true, listenerOn := false, inPending := false }

/-- Record a promise settlement: the count of `resolve`/`reject` calls
increments; the outcome is fixed by the first settlement only. -/
def settleWith (oc : COutcome) (c : CallRec) : CallRec :=
  { c with settleCount := c.settleCount + 1,
           outcome := match c.outcome with | none => some oc | some o => some o }

/-- One event-loop turn acting on the call.
A matching reply runs only while the listener is attached:
`clearTimeout(timeout); cleanup(); resolve(msg.result)`.
The deadline fires only while armed: `cleanup(); reject(...)`.
`stop()` reaches the call only while it is in `pendingMessages`:
`clearTimeout(timeout); cleanup()` — with no settlement.
Non-matching or unparseable messages are ignored. -/
def stepCall (c : CallRec) : CEvent → CallRec
  | .msgReply =>
      if c.listenerOn then
        settleWith .success (cleanupFn { c with timerOn := false })
      else c
  | .timerFire =>
      if c.timerOn then
        settleWith .timedOut (cleanupFn { c with timerOn := false })
      else c
  | .stopCleanup =>
      if c.inPending then
        let c1 := cleanupFn { c with timerOn := false }
        { c1 with outcome := match c1.outcome with | none => some .cleaned | some o => some o }
      else c
  | .otherMsg => c

def runCall (evts : List CEvent) : CallRec :=
  evts.foldl stepCall initCall

/-- The terminal records: settled once (success/timeout) or force-cleaned
(no settlement); in all three the listener is off and the
`pendingMessages` entry is gone. -/
def termCall : COutcome → CallRec
  | .success =>
      { listenerOn := false, timerOn := false, inPending := false,
        resolvedFlag := true, settleCount := 1, outcome := some .success }
  | .timedOut =>
      { listenerOn := false, timerOn := false, inPending := false,
        resolvedFlag := true, settleCount := 1, outcome := some .timedOut }
  | .cleaned =>
      { listenerOn := false, timerOn := false, inPending := false,
        resolvedFlag := true, settleCount := 0, outcome := some .cleaned }

/-- `this.msgId++`: return the current counter value and advance it. -/
def allocMsgId (msgId : Nat) : Nat × Nat := (msgId, msgId + 1)

/-- The identifiers assigned to `n` successive calls starting from
counter value `msgId`. -/
def msgIdsFrom (msgId : Nat) : Nat → List Nat
  | 0 => []
  | n + 1 => (allocMsgId msgId).1 :: msgIdsFrom (allocMsgId msgId).2 n

/-! ## Injection (`CDPHandler.inject`)

`scriptEvalOk = true` models the full-script `evaluate` resolving,
`false` models it rejecting on the 5s deadline (the expression was sent
over the wire either way; the `catch` in `inject` leaves `injected`
false).  The else-branch sends only the targeted
`__autoRetryConfig.acceptAll` update. -/

structure InjSt where
  injected : Bool
deriving DecidableEq

inductive SentMsg
  | fullScript
  | startCall
  | configUpdate
deriving DecidableEq, BEq

def injectStep (st : InjSt) (scriptEvalOk : Bool) : InjSt × List SentMsg :=
  if st.injected then (st, [.configUpdate])
  else if scriptEvalOk then (⟨true⟩, [.fullScript, .startCall])
  else (st, [.fullScript])

/-- A sequence of `inject` calls on one connection, with the given
full-script evaluation outcomes; returns the final flag and everything
sent over the wire. -/
def injectRun (st : InjSt) : List Bool → InjSt × List SentMsg
  | [] => (st, [])
  | ok :: rest =>
      let r1 := injectStep st ok
      let r2 := injectRun r1.1 rest
      (r2.1, r1.2 ++ r2.2)

/-! ## Discovery (`CDPHandler.getPages`)

JSON values are modelled explicitly; `HttpResult` covers a network
error, the 1s probe timeout, and a body that either fails `JSON.parse`
(`body none`) or parses to a value.  The filter callback
`p => p.webSocketDebuggerUrl && (p.type === 'page' || p.type === 'webview')`
throws a `TypeError` when `p` is `null` (property access on `null`);
`.filter` on a non-array value throws as well; both are swallowed by the
surrounding try/catch and the promise resolves `[]`. -/

inductive JVal
  | null
  | bool (b : Bool)
  | num (n : Int)
  | str (s : String)
  | arr (elems : List JVal)
  | obj (fields : List (String × JVal))

def lookupField : List (String × JVal) → String → Option JVal
  | [], _ => none
  | (k, v) :: rest, key => if k == key then some v else lookupField rest key

/-- JS property read on a non-null value: objects look up the field,
every other value yields `undefined` (`none`). -/
def getProp : JVal → String → Option JVal
  | .obj fields, key => lookupField fields key
  | _, _ => none

/-- JS truthiness of a property-read result (`undefined`, `null`,
`false`, `0` and the empty string are falsy). -/
def truthyO : Option JVal → Bool
  | none => false
  | some .null => false
  | some (.bool b) => b
  | some (.num n) => !(n == 0)
  | some (.str s) => !(s == "")
  | some (.arr _) => true
  | some (.obj _) => true

/-- `p.type === lbl`: strict equality against a string literal. -/
def typeIs (p : JVal) (lbl : String) : Bool :=
  match getProp p "type" with
  | some (.str t) => t == lbl
  | _ => false

/-- The filter callback on a non-null element. -/
def evalCallbackB (p : JVal) : Bool :=
  truthyO (getProp p "webSocketDebuggerUrl") && (typeIs p "page" || typeIs p "webview")

def jvalNotNull : JVal → Bool
  | .null => false
  | _ => true

/-- The filter callback with JS exception behaviour: accessing
`p.webSocketDebuggerUrl` on `null` throws. -/
def evalCallbackE (p : JVal) : Except Unit Bool :=
  match p with
  | .null => .error ()
  | _ => .ok (evalCallbackB p)

/-- `pages.filter(callback)`: a throw inside the callback aborts the
whole filter. -/
def filterPagesE : List JVal → Except Unit (List JVal)
  | [] => .ok []
  | p :: rest =>
      match evalCallbackE p with
      | .error e => .error e
      | .ok b =>
          match filterPagesE rest with
          | .error e => .error e
          | .ok l => .ok (if b then p :: l else l)

inductive HttpResult
  | netError
  | timeout
  | body (parsed : Option JVal)

def jvalIsArr : JVal → Bool
  | .arr _ => true
  | _ => false

/-- `CDPHandler.getPages(port)`: network error and probe timeout resolve
`[]`; `JSON.parse` failure resolves `[]`; a parsed non-array makes
`.filter` throw, caught, `[]`; a parsed array is filtered, with any
callback throw caught, `[]`. -/
def getPagesModel : HttpResult → List JVal
  | .netError => []
  | .timeout => []
  | .body none => []
  | .body (some (JVal.arr l)) =>
      match filterPagesE l with
      | .ok r => r
      | .error _ => []
  | .body (some _) => []

/-! ## Stats aggregation (`CDPHandler.getStats` / `resetStats`)

One `CPage` per pooled connection: its monitor's counters, whether the
`getStats` evaluate round-trip succeeds (a failed or monitor-less page
contributes `{}` i.e. zeros, errors are swallowed), and whether the
`resetStats` evaluate is delivered (its errors are swallowed too,
leaving that page's counters untouched). -/

structure CPage where
  st : MStats
  getOk : Bool
  resetOk : Bool
deriving DecidableEq

def addStats (a b : MStats) : MStats :=
  ⟨a.clicks + b.clicks, a.blocked + b.blocked, a.acceptAllClicks + b.acceptAllClicks⟩

def pageContribution (p : CPage) : MStats :=
  if p.getOk then p.st else zeroStats

/-- `CDPHandler.getStats()`: sum every page's readable counters. -/
def getStatsAgg (pages : List CPage) : MStats :=
  pages.foldl (fun acc p => addStats acc (pageContribution p)) zeroStats

/-- The per-page effect of `if(window.__autoRetryResetStats) window.__autoRetryResetStats()`. -/
def applyReset (p : CPage) : CPage :=
  if p.resetOk then { p with st := zeroStats } else p

/-- `CDPHandler.resetStats()`: first gather the aggregate via
`getStats()`, then send the reset expression to every page; return the
gathered snapshot. -/
def resetStatsOp (pages : List CPage) : MStats × List CPage :=
  (getStatsAgg pages, pages.map applyReset)

/-! ## Concrete example inputs used by witnesses and counterexamples -/

/-- A concrete retry button inside an error context whose nearest command
container holds a banned command. -/
def btnC2 : RetryBtn :=
  { self := { textContent := "Retry", className := "btn" },
    ancestors := [{ textContent := "Agent terminated Retry", className := "row" }],
    container := some "$ rm -rf /" }

/-- A pool of one live connection (id 10) and a discovery pass that
returns a fresh target (id 20) followed by the just-evicted one (id 10)
— both `connect` attempts succeed. -/
def poolC5 : List Conn := [⟨10, true, false, 0⟩]

def targetsC5 : List Target := [⟨20, true, 5⟩, ⟨10, true, 6⟩]

/-- Counts the full-script sends (`this.getInjectScript(config)` passed to
`evaluate`) among the expressions sent over a connection's channel. -/
def countFull : List SentMsg → Nat
  | [] => 0
  | .fullScript :: rest => countFull rest + 1
  | _ :: rest => countFull rest

/-- A well-formed discovery entry: a present, non-empty
`webSocketDebuggerUrl` and type `page`. -/
def goodPageC7 : JVal :=
  JVal.obj [("webSocketDebuggerUrl", JVal.str "ws://127.0.0.1:31905/devtools/page/A"),
            ("type", JVal.str "page")]

/-- A monitor state whose document cache was filled by a
`getAllDocuments` call at instant 0. -/
def monC9 : MonState := (getAllDocsM [1] 0 initMonState).2

/-- A connected page holding one recorded click whose reset expression is
lost (the `evaluate` rejects and `resetStats` swallows the error). -/
def pageC10 : CPage := ⟨⟨1, 0, 0⟩, true, false⟩

/-! ## Trace lemmas for the scan pass -/

lemma retryClicksGated_accept (rest : List MEvent) :
    retryClicksGated (.acceptClick :: rest) = retryClicksGated rest := by
  cases rest <;> rfl

lemma retryClicksGated_gate_blocked (rest : List MEvent) :
    retryClicksGated (.gateEval :: .blockedEvt :: rest) = retryClicksGated rest := by
  cases rest <;> rfl

lemma retryClicksGated_gate_retry (rest : List MEvent) :
    retryClicksGated (.gateEval :: .retryClick :: rest) = retryClicksGated rest := by
  cases rest <;> rfl

lemma processRetryBtn_gated (bannedCommands : List String) (b : RetryBtn) (s : MStats)
    (rest : List MEvent) :
    retryClicksGated ((processRetryBtn bannedCommands b s).2 ++ rest) =
      retryClicksGated rest := by
  unfold processRetryBtn
  split
  · rfl
  · split
    · rfl
    · cases hb : b.container with
      | some ctext =>
          simp only []
          split
          · exact retryClicksGated_gate_blocked rest
          · exact retryClicksGated_gate_retry rest
      | none => exact retryClicksGated_gate_retry rest

lemma clickRetryDoc_gated (bannedCommands : List String) :
    ∀ (btns : List RetryBtn) (s : MStats) (rest : List MEvent),
      retryClicksGated ((clickRetryDoc bannedCommands btns s).2 ++ rest) =
        retryClicksGated rest
  | [], _, _ => rfl
  | b :: btns, s, rest => by
      simp only [clickRetryDoc, List.append_assoc]
      rw [processRetryBtn_gated]
      exact clickRetryDoc_gated bannedCommands btns _ rest

lemma clickAcceptDoc_gated :
    ∀ (els : List AcceptEl) (s : MStats) (rest : List MEvent),
      retryClicksGated ((clickAcceptDoc els s).2 ++ rest) = retryClicksGated rest
  | [], _, _ => rfl
  | e :: els, s, rest => by
      simp only [clickAcceptDoc]
      split
      · exact retryClicksGated_accept rest
      · exact clickAcceptDoc_gated els s rest

lemma processDoc_gated (cfg : MCfg) (d : MDoc) (s : MStats) (rest : List MEvent) :
    retryClicksGated ((processDoc cfg d s).2 ++ rest) = retryClicksGated rest := by
  unfold processDoc
  split
  · simp only [List.append_assoc]
    rw [clickRetryDoc_gated, clickAcceptDoc_gated]
  · rw [clickRetryDoc_gated]

lemma findAndClickButtons_gated (cfg : MCfg) :
    ∀ (docs : List MDoc) (s : MStats) (rest : List MEvent),
      retryClicksGated ((findAndClickButtons cfg docs s).2 ++ rest) =
        retryClicksGated rest
  | [], _, _ => rfl
  | d :: docs, s, rest => by
      simp only [findAndClickButtons, List.append_assoc]
      rw [processDoc_gated]
      exact findAndClickButtons_gated cfg docs _ rest

/-! ## Claim theorems: the in-page danger gate (C1, C2) -/

/-- Claim C1, counterexample: with `acceptAll` enabled, a scan pass over a
document containing a visible exact-text accept-all control but no retry
button dispatches an accept-all click with no danger-gate evaluation
anywhere in its trace — the gate is neither evaluated before that click
nor at all, refuting the claim for accept-all clicks. -/
theorem acceptClickBypassesGate_cex :
    (findAndClickButtons ⟨true, defaultBannedCommands⟩
        [⟨[], [⟨"Accept All", true⟩]⟩] zeroStats).2 = [MEvent.acceptClick] ∧
    allClicksGated (findAndClickButtons ⟨true, defaultBannedCommands⟩
        [⟨[], [⟨"Accept All", true⟩]⟩] zeroStats).2 = false := by
  decide

/-- Claim C1, amended: for every config, document list and starting
counters, every retry click dispatched during a scan pass is immediately
preceded in the pass's event trace by the synchronous evaluation of the
banned-command danger guard — the gate runs before the click, never
after.  Accept-all clicks (when `acceptAll` is enabled) are dispatched
without any danger-gate evaluation. -/
theorem retryClicksAlwaysGated (cfg : MCfg) (docs : List MDoc) (s : MStats) :
    retryClicksGated (findAndClickButtons cfg docs s).2 = true := by
  have h := findAndClickButtons_gated cfg docs s []
  rwa [List.append_nil] at h

/-- Claim C2 (confirmed): in `clickRetryButtonsInDocument`, for a button
whose trimmed text is exactly `'Retry'` sitting in an error context: a
command container whose text matches a banned command suppresses the
click, increments `blocked` and leaves `clicks` unchanged; a
non-matching container, or no container at all, lets the click proceed,
incrementing `clicks` and leaving `blocked` unchanged. -/
theorem retryDangerGateCorrect (bannedCommands : List String) (b : RetryBtn) (s : MStats)
    (htext : trimStr b.self.textContent = "Retry")
    (hctx : isErrorContext b = true) :
    (∀ ctext, b.container = some ctext → isDangerousCommand bannedCommands ctext = true →
        processRetryBtn bannedCommands b s =
          ({ s with blocked := s.blocked + 1 }, [.gateEval, .blockedEvt])) ∧
    (∀ ctext, b.container = some ctext → isDangerousCommand bannedCommands ctext = false →
        processRetryBtn bannedCommands b s =
          ({ s with clicks := s.clicks + 1 }, [.gateEval, .retryClick])) ∧
    (b.container = none →
        processRetryBtn bannedCommands b s =
          ({ s with clicks := s.clicks + 1 }, [.gateEval, .retryClick])) := by
  refine ⟨?_, ?_, ?_⟩
  · intro ctext hc hdanger
    simp [processRetryBtn, htext, hctx, hc, hdanger]
  · intro ctext hc hdanger
    simp [processRetryBtn, htext, hctx, hc, hdanger]
  · intro hc
    simp [processRetryBtn, htext, hctx, hc]

theorem retryDangerGateCorrect_witness :
    processRetryBtn defaultBannedCommands btnC2 zeroStats =
      ({ zeroStats with blocked := zeroStats.blocked + 1 },
       [MEvent.gateEval, MEvent.blockedEvt]) :=
  (retryDangerGateCorrect defaultBannedCommands btnC2 zeroStats (by decide)
    (by decide)).1 "$ rm -rf /" rfl (by decide)

/-! ## Pool lemmas -/

lemma oldestFold_spec :
    ∀ (l : List Conn) (a : Conn),
      ∃ c, l.foldl oldestStep (some a) = some c ∧ (c = a ∨ c ∈ l) ∧
        c.connectedAt ≤ a.connectedAt ∧ ∀ d ∈ l, c.connectedAt ≤ d.connectedAt := by
  intro l
  induction l with
  | nil => exact fun a => ⟨a, rfl, Or.inl rfl, le_refl _, by simp⟩
  | cons h t ih =>
      intro a
      by_cases hlt : h.connectedAt < a.connectedAt
      · obtain ⟨c, hc, hmem, hle, hall⟩ := ih h
        refine ⟨c, ?_, ?_, ?_, ?_⟩
        · simpa [List.foldl_cons, oldestStep, hlt] using hc
        · rcases hmem with rfl | hm
          · exact Or.inr (List.mem_cons_self _ _)
          · exact Or.inr (List.mem_cons_of_mem _ hm)
        · exact le_trans hle (le_of_lt hlt)
        · intro d hd
          rcases List.mem_cons.mp hd with rfl | hd2
          · exact hle
          · exact hall d hd2
      · obtain ⟨c, hc, hmem, hle, hall⟩ := ih a
        refine ⟨c, ?_, ?_, hle, ?_⟩
        · simpa [List.foldl_cons, oldestStep, hlt] using hc
        · rcases hmem with rfl | hm
          · exact Or.inl rfl
          · exact Or.inr (List.mem_cons_of_mem _ hm)
        · intro d hd
          rcases List.mem_cons.mp hd with rfl | hd2
          · exact le_trans hle (le_of_not_lt hlt)
          · exact hall d hd2

/-- On a nonempty pool, the scan of `evictOldestConnection` returns a
pool member whose `connectedAt` is minimal. -/
lemma oldestScan_spec (h : Conn) (t : List Conn) :
    ∃ c, oldestScan (h :: t) = some c ∧ c ∈ h :: t ∧
      ∀ d ∈ h :: t, c.connectedAt ≤ d.connectedAt := by
  obtain ⟨c, hc, hmem, hle, hall⟩ := oldestFold_spec t h
  refine ⟨c, ?_, ?_, ?_⟩
  · simpa [oldestScan, List.foldl_cons, oldestStep] using hc
  · rcases hmem with rfl | hm
    · exact List.mem_cons_self _ _
    · exact List.mem_cons_of_mem _ hm
  · intro d hd
    rcases List.mem_cons.mp hd with rfl | hd2
    · exact hle
    · exact hall d hd2

lemma poolHas_iff (pool : List Conn) (i : Nat) :
    poolHas pool i = true ↔ ∃ c ∈ pool, c.id = i := by
  simp [poolHas, List.any_eq_true]

lemma poolHas_of_mem {pool : List Conn} {c : Conn} (h : c ∈ pool) :
    poolHas pool c.id = true :=
  (poolHas_iff pool c.id).mpr ⟨c, h, rfl⟩

lemma deleteId_length :
    ∀ (pool : List Conn) (i : Nat), poolHas pool i = true →
      (deleteId pool i).length + 1 = pool.length := by
  intro pool
  induction pool with
  | nil => intro i h; simp [poolHas] at h
  | cons c rest ih =>
      intro i h
      by_cases hc : (c.id == i) = true
      · simp [deleteId, hc]
      · have hrest : poolHas rest i = true := by
          simp [poolHas, List.any_cons, hc] at h
          simpa [poolHas, List.any_eq_true] using h
        simp [deleteId, hc, List.length_cons, ih i hrest]

lemma poolHas_eq_false (pool : List Conn) (i : Nat) :
    poolHas pool i = false ↔ ∀ c ∈ pool, c.id ≠ i := by
  rw [← Bool.not_eq_true, poolHas_iff]
  push_neg
  rfl

/-- With distinct pool identifiers (a `Map` invariant), `Map.delete`
leaves no entry under the deleted key. -/
lemma poolHas_deleteId_self :
    ∀ (pool : List Conn) (i : Nat), (pool.map Conn.id).Nodup →
      poolHas (deleteId pool i) i = false := by
  intro pool
  induction pool with
  | nil => intro i _; rfl
  | cons c rest ih =>
      intro i hnd
      rw [List.map_cons, List.nodup_cons] at hnd
      by_cases hc : (c.id == i) = true
      · have hci : c.id = i := by simpa using hc
        simp only [deleteId, hc, if_true]
        rw [poolHas_eq_false]
        intro d hd he
        exact hnd.1 (List.mem_map.mpr ⟨d, hd, by rw [he, hci]⟩)
      · have hc2 : (c.id == i) = false := by simpa using hc
        simp only [deleteId, hc2, Bool.false_eq_true, if_false]
        simp only [poolHas, List.any_cons, hc2, Bool.false_or]
        exact ih i hnd.2

lemma evict_length (h : Conn) (t : List Conn) :
    (evictOldestConnection (h :: t)).length + 1 = (h :: t).length := by
  obtain ⟨c, hc, hmem, _⟩ := oldestScan_spec h t
  rw [evictOldestConnection, hc]
  exact deleteId_length (h :: t) c.id (poolHas_of_mem hmem)

lemma evict_le_len (pool : List Conn) :
    (evictOldestConnection pool).length ≤ pool.length := by
  cases pool with
  | nil => exact le_refl _
  | cons h0 t0 => have := evict_length h0 t0; omega

lemma evictIfFull_le_len (maxConnections : Nat) (pool : List Conn) :
    (evictIfFull maxConnections pool).length ≤ pool.length := by
  unfold evictIfFull
  split
  · exact evict_le_len pool
  · exact le_refl _

lemma evictIfFull_append_le (maxConnections : Nat) (pool : List Conn)
    (hmax : 1 ≤ maxConnections) (hpool : pool.length ≤ maxConnections) :
    (evictIfFull maxConnections pool).length + 1 ≤ maxConnections := by
  unfold evictIfFull
  by_cases h2 : maxConnections ≤ pool.length
  · rw [if_pos h2]
    have hne : pool ≠ [] := by
      intro hnil
      rw [hnil] at h2
      simp only [List.length_nil, Nat.le_zero] at h2
      omega
    obtain ⟨h0, t0, rfl⟩ := List.exists_cons_of_ne_nil hne
    have := evict_length h0 t0
    omega
  · rw [if_neg h2]
    omega

lemma admit_length_le (maxConnections : Nat) (pool : List Conn) (t : Target)
    (hmax : 1 ≤ maxConnections) (hpool : pool.length ≤ maxConnections) :
    (admitTarget maxConnections pool t).length ≤ maxConnections := by
  unfold admitTarget
  by_cases h1 : poolHas pool t.id = true
  · rw [h1]
    simpa using hpool
  · have h1f : poolHas pool t.id = false := by simpa using h1
    rw [h1f]
    cases h3 : t.connectOk with
    | true =>
        simp only [Bool.false_eq_true, if_false, if_true, List.length_append,
          List.length_singleton]
        exact evictIfFull_append_le maxConnections pool hmax hpool
    | false =>
        simp only [Bool.false_eq_true, if_false]
        exact le_trans (evictIfFull_le_len maxConnections pool) hpool

lemma reconcileFold_bound (maxConnections : Nat) (hmax : 1 ≤ maxConnections) :
    ∀ (targets : List Target) (pool : List Conn),
      pool.length ≤ maxConnections →
      (targets.foldl (admitTarget maxConnections) pool).length ≤ maxConnections := by
  intro targets
  induction targets with
  | nil => intro pool h; exact h
  | cons t rest ih =>
      intro pool h
      exact ih _ (admit_length_le maxConnections pool t hmax h)

/-! ## Claim theorems: pool capacity (C3) and eviction (C5) -/

/-- Claim C3, counterexample: with two live pooled connections and the
configured maximum lowered to 1, a reconciliation pass that discovers no
new target leaves both connections in place — the pass never shrinks an
over-capacity pool, so `connections.size ≤ maxConnections` fails after
it completes. -/
theorem reconcilePoolBound_cex :
    ¬ ((startReconcile 1 [⟨1, true, false, 0⟩, ⟨2, true, false, 1⟩] []).length ≤ 1) := by
  decide

/-- Claim C3, amended: after a reconciliation pass the pool size is
bounded by the configured maximum, provided the pool already satisfied
the bound when the pass began and the maximum is at least 1.  (A maximum
lowered between passes below the current pool size is not restored: the
pass evicts a single connection only when admitting a new target, and
never shrinks an already over-capacity pool.) -/
theorem reconcilePoolBound (maxConnections : Nat) (pool : List Conn)
    (targets : List Target) (hmax : 1 ≤ maxConnections)
    (hpool : pool.length ≤ maxConnections) :
    (startReconcile maxConnections pool targets).length ≤ maxConnections := by
  unfold startReconcile
  exact reconcileFold_bound maxConnections hmax targets _
    (le_trans (List.length_filter_le _ _) hpool)

theorem reconcilePoolBound_witness :
    (startReconcile 2 [⟨1, true, false, 0⟩] [⟨2, true, 5⟩, ⟨3, true, 6⟩]).length ≤ 2 :=
  reconcilePoolBound 2 [⟨1, true, false, 0⟩] [⟨2, true, 5⟩, ⟨3, true, 6⟩]
    (by decide) (by decide)

/-- Claim C5, counterexample: with the pool at its capacity of 1,
admitting target 20 evicts the minimal-`connectedAt` connection 10 and
installs 20; but the same pass then re-discovers id 10, evicts 20 and
re-admits 10 — so after the pass completes the evicted identifier 10 is
present and the newly admitted identifier 20 is absent, refuting the
claim's after-the-pass clauses. -/
theorem evictionAfterPass_cex :
    admitTarget 1 (poolC5.filter (fun c => c.wsOpen)) ⟨20, true, 5⟩ =
      [⟨20, true, false, 5⟩] ∧
    startReconcile 1 poolC5 targetsC5 = [⟨10, true, false, 6⟩] ∧
    poolHas (startReconcile 1 poolC5 targetsC5) 10 = true ∧
    poolHas (startReconcile 1 poolC5 targetsC5) 20 = false := by
  decide

/-- Claim C5, amended: when the pool is at capacity, its identifiers are
distinct (a `Map` invariant) and a not-yet-pooled target is admitted
with a successful channel open, the admission step evicts the pooled
connection whose `connectedAt` is minimal, and immediately after that
step the evicted identifier is absent from the pool while the new
target's identifier is present.  (Later admissions in the same pass may
evict the new identifier or re-admit the evicted one, as the
counterexample shows.) -/
theorem evictionStepCorrect (maxConnections : Nat) (h0 : Conn) (t0 : List Conn)
    (t : Target) (hcap : maxConnections ≤ (h0 :: t0).length)
    (hnew : poolHas (h0 :: t0) t.id = false) (hok : t.connectOk = true)
    (hnodup : ((h0 :: t0).map Conn.id).Nodup) :
    ∃ ev, oldestScan (h0 :: t0) = some ev ∧ ev ∈ h0 :: t0 ∧
      (∀ c ∈ h0 :: t0, ev.connectedAt ≤ c.connectedAt) ∧
      poolHas (admitTarget maxConnections (h0 :: t0) t) ev.id = false ∧
      poolHas (admitTarget maxConnections (h0 :: t0) t) t.id = true := by
  obtain ⟨ev, hscan, hmem, hmin⟩ := oldestScan_spec h0 t0
  have hevHas : poolHas (h0 :: t0) ev.id = true := poolHas_of_mem hmem
  have hids : ev.id ≠ t.id := by
    intro he
    rw [he] at hevHas
    rw [hevHas] at hnew
    exact Bool.noConfusion hnew
  have hafter : admitTarget maxConnections (h0 :: t0) t =
      deleteId (h0 :: t0) ev.id ++ [⟨t.id, true, false, t.time⟩] := by
    rw [admitTarget, hnew, hok]
    simp only [Bool.false_eq_true, if_false, if_true]
    rw [evictIfFull, if_pos hcap, evictOldestConnection, hscan]
  refine ⟨ev, hscan, hmem, hmin, ?_, ?_⟩
  · rw [hafter]
    have h1 : poolHas (deleteId (h0 :: t0) ev.id) ev.id = false :=
      poolHas_deleteId_self (h0 :: t0) ev.id hnodup
    simp [poolHas, List.any_append, List.any_cons] at h1 ⊢
    exact ⟨by simpa [poolHas] using h1, Ne.symm hids⟩
  · rw [hafter]
    simp [poolHas, List.any_append, List.any_cons]

theorem evictionStepCorrect_witness :
    poolHas (admitTarget 2 [⟨1, true, false, 7⟩, ⟨2, true, false, 3⟩] ⟨5, true, 9⟩) 5
      = true := by
  obtain ⟨ev, h1, h2, h3, h4, h5⟩ :=
    evictionStepCorrect 2 ⟨1, true, false, 7⟩ [⟨2, true, false, 3⟩] ⟨5, true, 9⟩
      (by decide) (by decide) (by decide) (by decide)
  exact h5

/-! ## Call-lifecycle lemmas (C4) -/

lemma stepCall_term (oc : COutcome) (e : CEvent) :
    stepCall (termCall oc) e = termCall oc := by
  cases oc <;> cases e <;> decide

lemma runCall_cases_aux :
    ∀ (evts : List CEvent) (c : CallRec),
      (c = initCall ∨ ∃ oc, c = termCall oc) →
      (evts.foldl stepCall c = initCall ∨ ∃ oc, evts.foldl stepCall c = termCall oc) := by
  intro evts
  induction evts with
  | nil => intro c h; exact h
  | cons e rest ih =>
      intro c h
      apply ih
      rcases h with rfl | ⟨oc, rfl⟩
      · cases e with
        | msgReply => exact Or.inr ⟨.success, by decide⟩
        | timerFire => exact Or.inr ⟨.timedOut, by decide⟩
        | stopCleanup => exact Or.inr ⟨.cleaned, by decide⟩
        | otherMsg => exact Or.inl (by decide)
      · rw [stepCall_term]
        exact Or.inr ⟨oc, rfl⟩

/-- A call either still awaits its first effective event or has reached
exactly one of the three terminal records. -/
lemma runCall_cases (evts : List CEvent) :
    runCall evts = initCall ∨ ∃ oc, runCall evts = termCall oc :=
  runCall_cases_aux evts initCall (Or.inl rfl)

lemma msgIdsFrom_ge :
    ∀ (n msgId x : Nat), x ∈ msgIdsFrom msgId n → msgId ≤ x := by
  intro n
  induction n with
  | zero => intro msgId x h; simp [msgIdsFrom] at h
  | succ m ih =>
      intro msgId x h
      rw [msgIdsFrom] at h
      rcases List.mem_cons.mp h with rfl | h2
      · exact le_refl _
      · exact le_trans (Nat.le_succ msgId) (ih (msgId + 1) x h2)

lemma msgIdsFrom_pairwise_lt :
    ∀ (n msgId : Nat), (msgIdsFrom msgId n).Pairwise (fun a b => a < b) := by
  intro n
  induction n with
  | zero => intro msgId; exact List.Pairwise.nil
  | succ m ih =>
      intro msgId
      rw [msgIdsFrom]
      refine List.pairwise_cons.mpr ⟨?_, ih (msgId + 1)⟩
      intro x hx
      have := msgIdsFrom_ge m (msgId + 1) x hx
      simp only [allocMsgId] at this ⊢
      omega

/-! ## Claim theorem: evaluate-call lifecycle (C4) -/

/-- Claim C4 (confirmed): over every interleaving of event-loop turns
touching a registered `evaluate` call (matching reply, deadline firing,
forced cleanup by `stop`, unrelated traffic), the call's promise is
settled at most once; once a terminal outcome (success, timeout, or
forced cleanup) is recorded, the `pendingMessages` entry is gone and the
message listener is deregistered; while no terminal outcome has
occurred, the call is still fully armed (listener attached, deadline
pending, entry present), so a terminal event is guaranteed in real time;
and the per-pool `msgId` counter hands out strictly increasing
identifiers, so no identifier is reused while a call is pending. -/
theorem evaluateCallLifecycle :
    (∀ evts : List CEvent, (runCall evts).settleCount ≤ 1) ∧
    (∀ evts : List CEvent, (runCall evts).outcome.isSome = true →
        (runCall evts).inPending = false ∧ (runCall evts).listenerOn = false) ∧
    (∀ evts : List CEvent, (runCall evts).outcome = none → runCall evts = initCall) ∧
    (∀ msgId n : Nat, (msgIdsFrom msgId n).Pairwise (fun a b => a < b)) := by
  refine ⟨?_, ?_, ?_, ?_⟩
  · intro evts
    rcases runCall_cases evts with h | ⟨oc, h⟩
    · rw [h]; decide
    · rw [h]; cases oc <;> decide
  · intro evts hsome
    rcases runCall_cases evts with h | ⟨oc, h⟩
    · rw [h] at hsome; exact absurd hsome (by decide)
    · rw [h]; cases oc <;> exact ⟨rfl, rfl⟩
  · intro evts hnone
    rcases runCall_cases evts with h | ⟨oc, h⟩
    · exact h
    · rw [h] at hnone; cases oc <;> exact absurd hnone (by decide)
  · intro msgId n
    exact msgIdsFrom_pairwise_lt n msgId

theorem evaluateCallLifecycle_witness :
    (runCall [CEvent.msgReply]).inPending = false ∧
    (runCall [CEvent.msgReply]).listenerOn = false :=
  evaluateCallLifecycle.2.1 [CEvent.msgReply] (by decide)

/-! ## Injection lemmas and claim theorems (C6) -/

lemma countFull_append :
    ∀ (a b : List SentMsg), countFull (a ++ b) = countFull a + countFull b := by
  intro a b
  induction a with
  | nil => simp [countFull]
  | cons m rest ih =>
      cases m
      all_goals simp [countFull, ih]
      all_goals omega

lemma injectRun_injected :
    ∀ (outs : List Bool), (injectRun ⟨true⟩ outs).2 =
      List.replicate outs.length SentMsg.configUpdate := by
  intro outs
  induction outs with
  | nil => rfl
  | cons ok rest ih =>
      simp only [injectRun, injectStep, if_true, ih, List.length_cons]
      rfl

lemma countFull_replicate_config (n : Nat) :
    countFull (List.replicate n SentMsg.configUpdate) = 0 := by
  induction n with
  | zero => rfl
  | succ m ih => simpa [List.replicate_succ, countFull] using ih

/-- Claim C6, counterexample: when the first full-script `evaluate`
rejects on its deadline (the script was already sent over the channel),
`injected` stays false and the next reconciliation's `inject` sends the
full body again — two full-script sends within one connection lifetime. -/
theorem injectFullScriptTwice_cex :
    ¬ (countFull (injectRun ⟨false⟩ [false, true]).2 ≤ 1) := by
  decide

/-- Claim C6, amended: once a connection's `injected` flag is set, every
later `inject` call sends exactly the targeted
`__autoRetryConfig.acceptAll` update and never the full script body; and
from a fresh connection the number of full-script sends is exactly one
more than the number of initially failing full-script evaluations (or
one send per call if none ever succeeds) — so the full body is sent at
most once only when the first full-script evaluation succeeds. -/
theorem injectIdempotentOnFlag :
    (∀ (st : InjSt) (outs : List Bool), st.injected = true →
        (injectRun st outs).2 = List.replicate outs.length SentMsg.configUpdate) ∧
    (∀ outs : List Bool,
        countFull (injectRun ⟨false⟩ outs).2 =
          if outs.any id then (outs.takeWhile (fun b => !b)).length + 1
          else outs.length) := by
  constructor
  · intro st outs hst
    obtain ⟨inj⟩ := st
    subst hst
    exact injectRun_injected outs
  · intro outs
    induction outs with
    | nil => rfl
    | cons ok rest ih =>
        cases ok with
        | true =>
            simp only [injectRun, injectStep, Bool.false_eq_true, if_false, if_true,
              countFull_append, injectRun_injected, countFull_replicate_config,
              List.any_cons, List.takeWhile]
            rfl
        | false =>
            have hc : countFull (injectRun ⟨false⟩ (false :: rest)).2 =
                1 + countFull (injectRun ⟨false⟩ rest).2 := by
              simp [injectRun, injectStep, countFull_append, countFull]
              omega
            rw [hc, ih]
            by_cases h : rest.any id = true
            · simp [h, List.takeWhile_cons]
              omega
            · have h2 : rest.any id = false := by simpa using h
              simp [h2, List.takeWhile_cons]
              omega

theorem injectIdempotentOnFlag_witness :
    (injectRun ⟨true⟩ [true, false]).2 =
      List.replicate 2 SentMsg.configUpdate :=
  injectIdempotentOnFlag.1 ⟨true⟩ [true, false] rfl

/-! ## Discovery lemmas and claim theorems (C7) -/

lemma evalCallbackE_ok (p : JVal) (h : jvalNotNull p = true) :
    evalCallbackE p = .ok (evalCallbackB p) := by
  cases p with
  | null => exact absurd h (by decide)
  | bool b => rfl
  | num n => rfl
  | str s => rfl
  | arr l => rfl
  | obj fs => rfl

lemma filterPagesE_ok :
    ∀ (l : List JVal), l.all jvalNotNull = true →
      filterPagesE l = .ok (l.filter evalCallbackB) := by
  intro l
  induction l with
  | nil => intro h; rfl
  | cons p rest ih =>
      intro h
      rw [List.all_cons, Bool.and_eq_true] at h
      rw [filterPagesE, evalCallbackE_ok p h.1, ih h.2]
      by_cases hb : evalCallbackB p = true
      · simp [List.filter_cons, hb]
      · have hb2 : evalCallbackB p = false := by simpa using hb
        simp [List.filter_cons, hb2]

/-- Claim C7, counterexample: for the well-formed JSON array
`[null, {webSocketDebuggerUrl: "ws://...", type: "page"}]`, the filter
callback throws a `TypeError` on the `null` element (property access on
`null`), the catch swallows it, and the whole port yields `[]` — not the
eligible entries, of which there is exactly one. -/
theorem getPagesNullElement_cex :
    getPagesModel (HttpResult.body (some (JVal.arr [JVal.null, goodPageC7]))) = [] ∧
    List.filter evalCallbackB [JVal.null, goodPageC7] = [goodPageC7] :=
  ⟨rfl, rfl⟩

/-- Claim C7, amended: `getPages` never rejects — a network error, probe
timeout, unparseable body, or parsed non-array body each yield `[]` for
that port, so one failing port never aborts the discovery scan; and for
a well-formed JSON array none of whose elements is `null`, it returns
exactly the entries with a truthy `webSocketDebuggerUrl` whose `type` is
`'page'` or `'webview'`.  (An array containing a `null` element also
yields `[]`: the filter callback's property access throws and the catch
swallows it.) -/
theorem getPagesSpec :
    (∀ l : List JVal, l.all jvalNotNull = true →
        getPagesModel (.body (some (.arr l))) = l.filter evalCallbackB) ∧
    getPagesModel .netError = [] ∧
    getPagesModel .timeout = [] ∧
    getPagesModel (.body none) = [] ∧
    (∀ v : JVal, jvalIsArr v = false → getPagesModel (.body (some v)) = []) := by
  refine ⟨?_, rfl, rfl, rfl, ?_⟩
  · intro l h
    rw [getPagesModel, filterPagesE_ok l h]
  · intro v hv
    cases v with
    | arr l => exact absurd hv (by simp [jvalIsArr])
    | null => rfl
    | bool b => rfl
    | num n => rfl
    | str s => rfl
    | obj fs => rfl

theorem getPagesSpec_witness :
    getPagesModel (.body (some (.arr [goodPageC7, JVal.str "noise"]))) =
      List.filter evalCallbackB [goodPageC7, JVal.str "noise"] :=
  getPagesSpec.1 [goodPageC7, JVal.str "noise"] (by decide)

/-! ## Monitor state lemmas and claim theorems (C8, C9) -/

lemma stopMonitor_fields (env : List Nat) (now : Nat) (s : MonState) :
    (stopMonitor env now s).pollTimer = false ∧
    (stopMonitor env now s).debounceTimer = false ∧
    (stopMonitor env now s).observers = [] ∧
    (stopMonitor env now s).cached = none ∧
    (stopMonitor env now s).loaded = false := by
  rw [stopMonitor, cleanupObservers]
  rcases hc : s.cached with _ | ⟨docs, t⟩
  · simp [getAllDocsM, hc, invalidateDocsCache]
  · by_cases hfresh : now - t < docsCacheTTL
    · simp [getAllDocsM, hc, hfresh, invalidateDocsCache]
    · simp [getAllDocsM, hc, hfresh, invalidateDocsCache]

/-- Claim C8 (confirmed): `__autoRetryStop` is idempotent — from any
monitor state and any pair of call instants, calling it twice leaves no
active poll timer, no pending debounce timer and zero connected
change-observers (the model's totality reflects that every fallible step
of the source is wrapped in try/catch, so neither call throws); the
enumeration cache is empty as well. -/
theorem stopMonitorIdempotent (env : List Nat) (n1 n2 : Nat) (s : MonState) :
    (stopMonitor env n1 s).pollTimer = false ∧
    (stopMonitor env n1 s).debounceTimer = false ∧
    (stopMonitor env n1 s).observers = [] ∧
    (stopMonitor env n2 (stopMonitor env n1 s)).pollTimer = false ∧
    (stopMonitor env n2 (stopMonitor env n1 s)).debounceTimer = false ∧
    (stopMonitor env n2 (stopMonitor env n1 s)).observers = [] ∧
    (stopMonitor env n2 (stopMonitor env n1 s)).cached = none := by
  obtain ⟨h1, h2, h3, h4, h5⟩ := stopMonitor_fields env n1 s
  obtain ⟨g1, g2, g3, g4, g5⟩ := stopMonitor_fields env n2 (stopMonitor env n1 s)
  exact ⟨h1, h2, h3, g1, g2, g3, g4⟩

/-- Claim C9, counterexample: a cache entry stamped by a
`getAllDocuments` call at instant 0 satisfies the claimed invariant at
that instant, but after a later monitor operation
(`__autoRetryResetStats`, which does not touch the cache) evaluated at
instant 6000 the entry is still present and is older than the 5s TTL —
the claimed state invariant is not preserved. -/
theorem docsCacheStale_cex :
    cacheInvB 0 monC9 = true ∧
    cacheInvB 6000 (resetStatsMonitor monC9) = false := by
  decide

/-- Claim C9, amended: a stale cache entry may persist in the state
between calls; the invariant that holds is at the use site: every
`getAllDocuments` call returns exactly the list stored in the cache it
leaves behind, stamped no longer ago than the TTL at the moment of the
call (a fresh traversal restamps it, a reuse is younger than the TTL by
the branch guard), so a stale entry is never returned; and the cache is
emptied by `invalidateDocsCache`, which `__autoRetryStop` always runs
via `cleanupObservers`. -/
theorem docsCacheFreshness :
    (∀ (env : List Nat) (now : Nat) (s : MonState),
        ∃ t, ((getAllDocsM env now s).2).cached =
            some ((getAllDocsM env now s).1, t) ∧ now - t < docsCacheTTL) ∧
    (∀ s : MonState, (invalidateDocsCache s).cached = none) ∧
    (∀ (env : List Nat) (now : Nat) (s : MonState),
        (stopMonitor env now s).cached = none) := by
  refine ⟨?_, fun s => rfl, ?_⟩
  · intro env now s
    rcases hc : s.cached with _ | ⟨docs, t⟩
    · exact ⟨now, by simp [getAllDocsM, hc], by simp [docsCacheTTL]⟩
    · by_cases hfresh : now - t < docsCacheTTL
      · exact ⟨t, by simp [getAllDocsM, hc, hfresh], hfresh⟩
      · exact ⟨now, by simp [getAllDocsM, hc, hfresh], by simp [docsCacheTTL]⟩
  · intro env now s
    exact (stopMonitor_fields env now s).2.2.2.1

/-! ## Stats lemmas and claim theorems (C10) -/

lemma addStats_zero (a : MStats) : addStats a zeroStats = a := by
  obtain ⟨x, y, z⟩ := a
  simp [addStats, zeroStats]

lemma statsFold_zero :
    ∀ (pages : List CPage) (acc : MStats),
      (∀ p ∈ pages, pageContribution p = zeroStats) →
      pages.foldl (fun acc p => addStats acc (pageContribution p)) acc = acc := by
  intro pages
  induction pages with
  | nil => intro acc _; rfl
  | cons p rest ih =>
      intro acc h
      rw [List.foldl_cons, h p (List.mem_cons_self _ _), addStats_zero]
      exact ih acc (fun q hq => h q (List.mem_cons_of_mem _ hq))

lemma applyReset_zero (p : CPage) (h : p.resetOk = true) :
    applyReset p = { p with st := zeroStats } := by
  simp [applyReset, h]

/-- Claim C10, counterexample: one connected page holds a recorded click
and its reset expression is lost (`evaluate` rejects, `resetStats`
swallows the error): `resetStats` still returns the pre-reset snapshot,
but afterwards the page's counters are unchanged — not zero — and an
immediately following `getStats` over the same connections returns the
same nonzero aggregate. -/
theorem resetStatsFailure_cex :
    (resetStatsOp [pageC10]).1 = ⟨1, 0, 0⟩ ∧
    (resetStatsOp [pageC10]).2 = [pageC10] ∧
    ¬ (getStatsAgg (resetStatsOp [pageC10]).2 = zeroStats) := by
  decide

/-- Claim C10, amended: `resetStats` returns the aggregate gathered by
`getStats` before any reset expression is sent (a pre-reset snapshot);
every page whose reset expression is delivered ends with counters
`{clicks: 0, blocked: 0, acceptAllClicks: 0}`; and when every page's
reset is delivered, an immediately following `getStats` over the same
unchanged connections returns the all-zero aggregate.  (A page whose
reset `evaluate` fails keeps its counters: the error is swallowed.) -/
theorem resetStatsSnapshot (pages : List CPage) :
    (resetStatsOp pages).1 = getStatsAgg pages ∧
    (∀ q ∈ (resetStatsOp pages).2, q.resetOk = true → q.st = zeroStats) ∧
    (pages.all (fun p => p.resetOk) = true →
        getStatsAgg (resetStatsOp pages).2 = zeroStats) := by
  refine ⟨rfl, ?_, ?_⟩
  · intro q hq hok
    obtain ⟨p, hp, rfl⟩ := List.mem_map.mp hq
    by_cases hr : p.resetOk = true
    · rw [applyReset_zero p hr]
    · rw [applyReset] at hok ⊢
      have hr2 : p.resetOk = false := by simpa using hr
      rw [hr2] at hok
      simp at hok
      rw [hok] at hr2
      exact absurd hr2 (by decide)
  · intro hall
    rw [List.all_eq_true] at hall
    apply statsFold_zero
    intro q hq
    obtain ⟨p, hp, rfl⟩ := List.mem_map.mp hq
    rw [applyReset_zero p (hall p hp)]
    simp [pageContribution, zeroStats]

theorem resetStatsSnapshot_witness :
    getStatsAgg (resetStatsOp [(⟨⟨2, 1, 0⟩, true, true⟩ : CPage)]).2 = zeroStats :=
  (resetStatsSnapshot [⟨⟨2, 1, 0⟩, true, true⟩]).2.2 (by decide)

end AutoRetry
